import Mathlib

/-
  A shallow embedding of the picotx transaction/compensation engine
  (src/context.ts, src/atomic.ts, src/transaction.ts).

  Values returned by actions are drawn from an arbitrary type V and
  user-thrown errors from an arbitrary type E.  Asynchronous execution in
  the source is single-threaded cooperative scheduling, so each async
  function is embedded as a pure function; observable effects (which
  actions and compensations actually ran, with which values) are recorded
  in an explicit event trace.
-/

namespace Picotx

variable {V E : Type}

/-- One registered compensation entry.  The source stores the closure
    `fun _ => compensation result args` built in atomic.ts at registration
    time; the captured action result and original argument list are frozen
    there.  `outcome` models the behaviour of the caller-supplied
    compensation when that closure is later invoked: `none` means it
    resolves, `some e` means it rejects with error `e`. -/
structure CompEntry (V E : Type) where
  result : V
  args : List V
  outcome : Option E
deriving DecidableEq

/-- The `compensations` array of one TransactionContext (context.ts), in
    registration order: JS `Array.push` appends at the end. -/
abbrev Ctx (V E : Type) := List (CompEntry V E)

/-- The process-wide `transactionContextStack` (context.ts).  The head of
    the Lean list is the top of the stack, i.e. the END of the JS array,
    where `Array.push` / `Array.pop` operate and where
    `getCurrentTransactionContext` reads. -/
abbrev Stack (V E : Type) := List (Ctx V E)

/-- Source context.ts: returns `stack[stack.length - 1]`, which is
    `undefined` exactly when the stack is empty. -/
def getCurrentTransactionContext (s : Stack V E) : Option (Ctx V E) :=
  s.head?

/-- Source context.ts: `transactionContextStack.push(ctx)`. -/
def pushTransactionContext (ctx : Ctx V E) (s : Stack V E) : Stack V E :=
  ctx :: s

/-- Source context.ts: `transactionContextStack.pop()`.  JS `Array.pop`
    removes the last element; on an EMPTY array it returns `undefined` and
    performs no change, so the embedding is total and maps the empty stack
    to itself. -/
def popTransactionContext (s : Stack V E) : Stack V E :=
  s.tail

/-- Errors observable from the engine: a user error thrown by a body,
    action or compensation; the `Cannot find current transaction context`
    error thrown by the implicit atomic wrapper; and the `AggregateError`
    built by transaction.ts from the ordered list of rollback failures. -/
inductive Err (E : Type) where
  | user : E → Err E
  | contextMissing : Err E
  | aggregate : List E → Err E
deriving DecidableEq

/-- Trace events: an action was invoked with some arguments and produced a
    result or threw, or a registered compensation closure was invoked
    (carrying the captured action result and original arguments it was
    registered with). -/
inductive Ev (V E : Type) where
  | action : List V → Except E V → Ev V E
  | comp : V → List V → Ev V E

/-- Source atomic.ts, `atomic(action, compensation)` applied to `args`:
    look up the current context; if absent, throw before ever invoking the
    action; otherwise run the action, and only on success push the
    compensation closure (capturing result and args) onto the current
    context's list.  `actionResult` models what the caller-supplied action
    does on these arguments; `compOutcome` what the compensation will do
    if later invoked. -/
def atomicInvoke (actionResult : Except E V) (args : List V)
    (compOutcome : Option E) :
    Stack V E → Except (Err E) V × Stack V E × List (Ev V E)
  | [] => (Except.error Err.contextMissing, [], [])
  | ctx :: rest =>
    match actionResult with
    | Except.error e =>
      (Except.error (Err.user e), ctx :: rest, [Ev.action args (Except.error e)])
    | Except.ok r =>
      (Except.ok r, (ctx ++ [⟨r, args, compOutcome⟩]) :: rest,
       [Ev.action args (Except.ok r)])

/-- Source atomic.ts, `atomicExplicit(action, compensation)(ctx)` applied
    to `args`: no context lookup at all; run the action and, only on
    success, append the compensation closure to the explicitly supplied
    context. -/
def atomicExplicitInvoke (actionResult : Except E V) (args : List V)
    (compOutcome : Option E) (ctx : Ctx V E) :
    Except (Err E) V × Ctx V E × List (Ev V E) :=
  match actionResult with
  | Except.error e =>
    (Except.error (Err.user e), ctx, [Ev.action args (Except.error e)])
  | Except.ok r =>
    (Except.ok r, ctx ++ [⟨r, args, compOutcome⟩],
     [Ev.action args (Except.ok r)])

/-- Source transaction.ts, the rollback loop in the catch block:
    `for (const rollback of list) try await rollback() catch push err`.
    Given the list in the order it is iterated, returns the invocation
    trace (every closure is invoked, in order, with its captured values)
    and the thrown errors in the order they were encountered. -/
def runRollback : List (CompEntry V E) → List (Ev V E) × List E
  | [] => ([], [])
  | c :: rest =>
    let p := runRollback rest
    (Ev.comp c.result c.args :: p.1,
     match c.outcome with
     | none => p.2
     | some e => e :: p.2)

/-- Caller-supplied transaction bodies, as the syntax of their possible
    interactions with the engine: return a value, throw an error, invoke
    an implicit-form atomic wrapper (the action's behaviour and the
    registered compensation's future behaviour are the constructor's
    data), sequence two steps, or run a nested transaction.  The source's
    arity dispatch (passing the context object for one-parameter bodies)
    only matters for explicit-form registration on the body's own
    context, which coincides with implicit registration because the
    body's own context is the stack top while it runs. -/
inductive Body (V E : Type) : Type where
  | ret : V → Body V E
  | throwErr : E → Body V E
  | atomicCall : Except E V → List V → Option E → Body V E
  | bind : Body V E → (V → Body V E) → Body V E
  | nested : Body V E → Body V E

/-- Interpreter for bodies over the context stack, returning the result
    (value or error), the final stack, and the event trace.  The
    `Body.nested` case is the embedding of `transaction(fn)` in
    transaction.ts: push a fresh context with an empty compensation list;
    run the body; on success pop and return the result unchanged; on
    failure reverse the context's compensation list in place, invoke every
    closure collecting rollback errors, pop, then throw the AggregateError
    of the rollback errors if there were any and otherwise rethrow the
    original error.  The context read in the catch block is the local
    `ctx` alias, which is the object at the top of the stack there because
    every nested transaction restores the stack. -/
def runBody : Body V E → Stack V E →
    Except (Err E) V × Stack V E × List (Ev V E)
  | Body.ret v, s => (Except.ok v, s, [])
  | Body.throwErr e, s => (Except.error (Err.user e), s, [])
  | Body.atomicCall a args co, s => atomicInvoke a args co s
  | Body.bind b k, s =>
    match runBody b s with
    | (Except.error e, s1, t1) => (Except.error e, s1, t1)
    | (Except.ok v, s1, t1) =>
      let p := runBody (k v) s1
      (p.1, p.2.1, t1 ++ p.2.2)
  | Body.nested fn, s =>
    match runBody fn (pushTransactionContext [] s) with
    | (Except.ok result, s2, t) =>
      (Except.ok result, popTransactionContext s2, t)
    | (Except.error err, s2, t) =>
      let comps := (getCurrentTransactionContext s2).getD []
      let rb := runRollback comps.reverse
      let s3 := popTransactionContext s2
      if rb.2.isEmpty then
        (Except.error err, s3, t ++ rb.1)
      else
        (Except.error (Err.aggregate rb.2), s3, t ++ rb.1)

/-- Source transaction.ts, `transaction(fn)` run against a given ambient
    stack: exactly the logic of the `Body.nested` interpreter case. -/
def transaction (fn : Body V E) (s : Stack V E) :
    Except (Err E) V × Stack V E × List (Ev V E) :=
  runBody (Body.nested fn) s

/-- A body consisting of a sequence of successful implicit atomic calls
    (one per list entry: the action returns `c.result` on arguments
    `c.args` and registers a compensation that will behave as
    `c.outcome`), followed by a continuation body. -/
def seqAtomics : List (CompEntry V E) → Body V E → Body V E
  | [], tailB => tailB
  | c :: rest, tailB =>
    Body.bind (Body.atomicCall (Except.ok c.result) c.args c.outcome)
      (fun _ => seqAtomics rest tailB)

/-- The action events produced by running `seqAtomics` over a list. -/
def actionEvents (L : List (CompEntry V E)) : List (Ev V E) :=
  L.map (fun c => Ev.action c.args (Except.ok c.result))

/-- The compensation-invocation events of a rollback pass over a list, in
    iteration order. -/
def compEvents (L : List (CompEntry V E)) : List (Ev V E) :=
  L.map (fun c => Ev.comp c.result c.args)

/-- The rollback errors collected by a rollback pass over a list, in
    iteration order. -/
def rollbackErrorsOf (L : List (CompEntry V E)) : List E :=
  L.filterMap (fun c => c.outcome)

theorem runRollback_eq (L : List (CompEntry V E)) :
    runRollback L = (compEvents L, rollbackErrorsOf L) := by
  induction L with
  | nil => rfl
  | cons c rest ih =>
    simp only [runRollback, ih, compEvents, rollbackErrorsOf, List.map_cons,
      List.filterMap_cons]
    cases c.outcome <;> rfl

theorem runBody_seqAtomics (L : List (CompEntry V E)) (tailB : Body V E) :
    ∀ (ctx : Ctx V E) (s : Stack V E),
      runBody (seqAtomics L tailB) (ctx :: s) =
        ((runBody tailB ((ctx ++ L) :: s)).1,
         (runBody tailB ((ctx ++ L) :: s)).2.1,
         actionEvents L ++ (runBody tailB ((ctx ++ L) :: s)).2.2) := by
  induction L with
  | nil =>
    intro ctx s
    simp [seqAtomics, actionEvents]
  | cons c rest ih =>
    intro ctx s
    simp only [seqAtomics, runBody, atomicInvoke, ih (ctx ++ [c]) s,
      List.append_assoc, List.singleton_append, actionEvents, List.map_cons]
    rfl

/-- Every run of a body on a nonempty stack leaves the part of the stack
    below the initial top frame untouched: only the top frame evolves.
    This is the balance invariant making the source's aliasing of the
    local `ctx` with the stack top sound. -/
theorem runBody_stack_tail (b : Body V E) :
    ∀ (ctx : Ctx V E) (s : Stack V E),
      ∃ c2, (runBody b (ctx :: s)).2.1 = c2 :: s := by
  induction b with
  | ret v => intro ctx s; exact ⟨ctx, rfl⟩
  | throwErr e => intro ctx s; exact ⟨ctx, rfl⟩
  | atomicCall a args co =>
    intro ctx s
    cases a with
    | error e => exact ⟨ctx, rfl⟩
    | ok r => exact ⟨ctx ++ [CompEntry.mk r args co], rfl⟩
  | bind b k ihb ihk =>
    intro ctx s
    obtain ⟨c1, h1⟩ := ihb ctx s
    rcases hr : runBody b (ctx :: s) with ⟨r1, s1, t1⟩
    rw [hr] at h1
    simp only at h1
    subst h1
    cases r1 with
    | error e =>
      refine ⟨c1, ?_⟩
      simp [runBody, hr]
    | ok v =>
      obtain ⟨c2, h2⟩ := ihk v c1 s
      refine ⟨c2, ?_⟩
      simp [runBody, hr, h2]
  | nested fn ih =>
    intro ctx s
    obtain ⟨c1, h1⟩ := ih [] (ctx :: s)
    rcases hr : runBody fn ([] :: ctx :: s) with ⟨r1, s1, t1⟩
    rw [hr] at h1
    simp only at h1
    subst h1
    cases r1 with
    | error e =>
      refine ⟨ctx, ?_⟩
      simp only [runBody, pushTransactionContext, hr]
      by_cases hE : (runRollback ((getCurrentTransactionContext
          (c1 :: ctx :: s)).getD []).reverse).2.isEmpty <;>
        simp [hE, popTransactionContext]
    | ok v =>
      refine ⟨ctx, ?_⟩
      simp [runBody, pushTransactionContext, hr, popTransactionContext]

/-- Every transaction call restores the ambient stack exactly: the push of
    its fresh context is matched by exactly one pop on every exit path. -/
theorem transaction_stack_restore (fn : Body V E) (s : Stack V E) :
    (transaction fn s).2.1 = s := by
  obtain ⟨c1, h1⟩ := runBody_stack_tail fn [] s
  rcases hr : runBody fn ([] :: s) with ⟨r1, s1, t1⟩
  rw [hr] at h1
  simp only at h1
  subst h1
  cases r1 with
  | error e =>
    simp only [transaction, runBody, pushTransactionContext, hr]
    by_cases hE : (runRollback ((getCurrentTransactionContext
        (c1 :: s)).getD []).reverse).2.isEmpty <;>
      simp [hE, popTransactionContext]
  | ok v =>
    simp [transaction, runBody, pushTransactionContext, hr, popTransactionContext]

/-- Full evaluation of a transaction whose body performs the successful
    atomic calls described by `L` and then throws `e`: the trace is the
    action events followed by one compensation invocation per registered
    entry in reverse registration order, the stack is restored, and the
    outcome is the original error when no compensation failed and
    otherwise the aggregate of the rollback failures in encounter order. -/
theorem transaction_throw_eq (L : List (CompEntry V E)) (e : E)
    (s : Stack V E) :
    transaction (seqAtomics L (Body.throwErr e)) s =
      (if (rollbackErrorsOf L.reverse).isEmpty then
         Except.error (Err.user e)
       else Except.error (Err.aggregate (rollbackErrorsOf L.reverse)),
       s, actionEvents L ++ compEvents L.reverse) := by
  simp only [transaction, runBody, pushTransactionContext]
  rw [runBody_seqAtomics L (Body.throwErr e) [] s]
  simp only [runBody, List.nil_append, getCurrentTransactionContext,
    List.head?_cons, Option.getD_some, runRollback_eq, popTransactionContext,
    List.tail_cons]
  by_cases hE : (rollbackErrorsOf L.reverse).isEmpty <;> simp [hE]

theorem nested_runBody (fn : Body V E) (s : Stack V E) :
    runBody (Body.nested fn) s = transaction fn s := rfl

/-- Commit path of transaction.ts: when the body resolves, the context is
    popped and the body's value returned unchanged, with no further
    events. -/
theorem transaction_body_ok (fn : Body V E) (s : Stack V E) (v : V)
    (s2 : Stack V E) (t : List (Ev V E))
    (h : runBody fn (pushTransactionContext [] s) = (Except.ok v, s2, t)) :
    transaction fn s = (Except.ok v, popTransactionContext s2, t) := by
  simp only [transaction, runBody, h]

/-- Catch path of transaction.ts: when the body rejects, the compensation
    list of the context (the stack top at catch time) is reversed and run,
    the context is popped, and the outcome is the original error or the
    aggregate of the collected rollback errors. -/
theorem transaction_body_error (fn : Body V E) (s : Stack V E) (err : Err E)
    (s2 : Stack V E) (t : List (Ev V E))
    (h : runBody fn (pushTransactionContext [] s) = (Except.error err, s2, t)) :
    transaction fn s =
      (if (rollbackErrorsOf ((getCurrentTransactionContext s2).getD []).reverse).isEmpty
       then Except.error err
       else Except.error (Err.aggregate
         (rollbackErrorsOf ((getCurrentTransactionContext s2).getD []).reverse)),
       popTransactionContext s2,
       t ++ compEvents ((getCurrentTransactionContext s2).getD []).reverse) := by
  simp only [transaction, runBody, h, runRollback_eq]
  split <;> rfl

/-- C1: a transaction whose body performs any number of successful atomic
    calls (each registering its compensation) and then fails produces,
    after the action events, exactly one compensation invocation per
    registered entry — so exactly N compensations run — in strict reverse
    registration order, each invoked with the action result and original
    arguments captured at registration time. -/
theorem c1_rollback_count_order_capture (L : List (CompEntry V E)) (e : E)
    (s : Stack V E) :
    (transaction (seqAtomics L (Body.throwErr e)) s).2.2 =
      actionEvents L ++ L.reverse.map (fun c => (Ev.comp c.result c.args : Ev V E)) ∧
    (L.reverse.map (fun c => (Ev.comp c.result c.args : Ev V E))).length = L.length := by
  constructor
  · rw [transaction_throw_eq]
    rfl
  · simp

/-- C2: when the body fails and at least one compensation fails during
    rollback, the transaction fails with the aggregate error whose
    contents are exactly the compensation failures in the order
    encountered during the reverse-registration rollback pass; the
    aggregate is built only from the rollback errors, so the original
    body error is not part of it. -/
theorem c2_aggregate_of_rollback_failures (L : List (CompEntry V E)) (e : E)
    (s : Stack V E) (h : rollbackErrorsOf L.reverse ≠ []) :
    (transaction (seqAtomics L (Body.throwErr e)) s).1 =
      Except.error (Err.aggregate (rollbackErrorsOf L.reverse)) := by
  have hE : (rollbackErrorsOf L.reverse).isEmpty = false := by
    cases hL : rollbackErrorsOf L.reverse with
    | nil => exact absurd hL h
    | cons a as => rfl
  rw [transaction_throw_eq]
  simp [hE]

theorem c2_witness :
    (transaction (V := Nat) (E := Nat)
        (seqAtomics [CompEntry.mk 0 [1] (some 7), CompEntry.mk 2 [] none]
          (Body.throwErr 5)) []).1 =
      Except.error (Err.aggregate [7]) :=
  c2_aggregate_of_rollback_failures
    [CompEntry.mk 0 [1] (some 7), CompEntry.mk 2 [] none] 5 [] (by decide)

/-- Composition lemma: a transaction whose body first performs the
    successful atomic calls of `L` and then fails in its continuation
    (leaving the stack below the top untouched) rolls back exactly the
    top-frame compensation list in reverse and resolves as in the catch
    block of transaction.ts. -/
theorem transaction_seq_error (L : List (CompEntry V E)) (tailB : Body V E)
    (s : Stack V E) (err : Err E) (ctx2 : Ctx V E) (t2 : List (Ev V E))
    (h : runBody tailB (L :: s) = (Except.error err, ctx2 :: s, t2)) :
    transaction (seqAtomics L tailB) s =
      (if (rollbackErrorsOf ctx2.reverse).isEmpty then Except.error err
       else Except.error (Err.aggregate (rollbackErrorsOf ctx2.reverse)),
       s, actionEvents L ++ t2 ++ compEvents ctx2.reverse) := by
  have hBody : runBody (seqAtomics L tailB) (pushTransactionContext [] s) =
      (Except.error err, ctx2 :: s, actionEvents L ++ t2) := by
    simp only [pushTransactionContext]
    rw [runBody_seqAtomics]
    simp [h]
  rw [transaction_body_error _ _ _ _ _ hBody]
  simp [getCurrentTransactionContext, popTransactionContext, List.append_assoc]

/-- C3: with a transaction nested inside another transaction's body, an
    inner failure first rolls back only the compensations registered in
    the inner context (in reverse order); the inner orchestrator
    re-raises, the outer orchestrator treats that error as its own body
    failure, and only then do the outer compensations run.  The trace
    equality places every inner compensation invocation strictly before
    every outer one, and each level aggregates only its own rollback
    failures. -/
theorem c3_nested_inner_rollback_before_outer (Lout Lin : List (CompEntry V E))
    (e : E) (s : Stack V E) :
    transaction (seqAtomics Lout
        (Body.nested (seqAtomics Lin (Body.throwErr e)))) s =
      (if (rollbackErrorsOf Lout.reverse).isEmpty then
         (if (rollbackErrorsOf Lin.reverse).isEmpty then
            Except.error (Err.user e)
          else Except.error (Err.aggregate (rollbackErrorsOf Lin.reverse)))
       else Except.error (Err.aggregate (rollbackErrorsOf Lout.reverse)),
       s,
       actionEvents Lout ++ actionEvents Lin ++ compEvents Lin.reverse
         ++ compEvents Lout.reverse) := by
  have hInner := transaction_throw_eq Lin e (Lout :: s)
  rw [← nested_runBody] at hInner
  by_cases hI : (rollbackErrorsOf Lin.reverse).isEmpty
  · rw [if_pos hI] at hInner
    rw [transaction_seq_error Lout _ s _ Lout _ hInner]
    simp [hI, List.append_assoc]
  · rw [if_neg hI] at hInner
    rw [transaction_seq_error Lout _ s _ Lout _ hInner]
    simp [hI, List.append_assoc]

/-- C4: when the body fails and every compensation registered on the
    transaction's context succeeds during rollback (in particular when
    there are none, in which case no compensation runs and the trace is
    unchanged), the transaction re-raises the original body error
    unchanged, not wrapped in any aggregate. -/
theorem c4_original_error_when_rollback_clean (fn : Body V E) (s : Stack V E)
    (err : Err E) (s2 : Stack V E) (t : List (Ev V E))
    (h1 : runBody fn (pushTransactionContext [] s) = (Except.error err, s2, t))
    (h2 : ∀ c ∈ (getCurrentTransactionContext s2).getD [], c.outcome = none) :
    (transaction fn s).1 = Except.error err ∧
    ((getCurrentTransactionContext s2).getD [] = [] →
      (transaction fn s).2.2 = t) := by
  have hnil : rollbackErrorsOf
      ((getCurrentTransactionContext s2).getD []).reverse = [] := by
    rw [rollbackErrorsOf, List.filterMap_eq_nil_iff]
    intro c hc
    exact h2 c (List.mem_reverse.mp hc)
  constructor
  · rw [transaction_body_error fn s err s2 t h1]
    simp [hnil]
  · intro hc
    rw [transaction_body_error fn s err s2 t h1]
    simp [hc, compEvents]

theorem c4_witness :
    (transaction (V := Nat) (E := Nat) (Body.throwErr 3) []).1 =
      Except.error (Err.user 3) ∧
    ((getCurrentTransactionContext ([[]] : Stack Nat Nat)).getD [] = [] →
      (transaction (V := Nat) (E := Nat) (Body.throwErr 3) []).2.2 = []) :=
  c4_original_error_when_rollback_clean (Body.throwErr 3) [] (Err.user 3)
    [[]] [] rfl (by simp [getCurrentTransactionContext])

/-- C5: when the body completes without failure, the transaction pops its
    context and returns the body's result unchanged; the trace it returns
    is exactly the body's trace, so none of the compensations accumulated
    on its context are ever invoked. -/
theorem c5_commit_returns_unchanged (fn : Body V E) (s : Stack V E) (v : V)
    (s2 : Stack V E) (t : List (Ev V E))
    (h : runBody fn (pushTransactionContext [] s) = (Except.ok v, s2, t)) :
    transaction fn s = (Except.ok v, popTransactionContext s2, t) :=
  transaction_body_ok fn s v s2 t h

theorem c5_witness :
    transaction (V := Nat) (E := Nat) (Body.ret 5) [] =
      (Except.ok 5, [], []) :=
  c5_commit_returns_unchanged (Body.ret 5) [] 5 [[]] [] rfl

/-- C6: when the wrapped action fails, both the implicit-form and the
    explicit-form atomic wrapper propagate the action's error unchanged
    and register nothing: the stack (hence the enclosing context's
    compensation list) and the explicitly passed context are exactly as
    before the call. -/
theorem c6_failed_action_registers_nothing (e : E) (args : List V)
    (co : Option E) (ctx : Ctx V E) (rest : Stack V E) :
    atomicInvoke (Except.error e) args co (ctx :: rest) =
      (Except.error (Err.user e), ctx :: rest,
       [Ev.action args (Except.error e)]) ∧
    atomicExplicitInvoke (Except.error e) args co ctx =
      (Except.error (Err.user e), ctx, [Ev.action args (Except.error e)]) :=
  ⟨rfl, rfl⟩

/-- C7: an implicit-form atomic call on an empty context stack fails with
    the context-missing error; the empty trace shows the wrapped action
    is never invoked, whatever it would have done. -/
theorem c7_context_missing_before_action (a : Except E V) (args : List V)
    (co : Option E) :
    atomicInvoke a args co ([] : Stack V E) =
      (Except.error Err.contextMissing, [], []) := rfl

/-- C8: after any top-level transaction call — committed, failed with the
    original error, or failed with an aggregate, over any body including
    nested transactions — the current-context lookup returns none: no
    context is leaked on any exit path. -/
theorem c8_no_context_leak (fn : Body V E) :
    getCurrentTransactionContext ((transaction fn ([] : Stack V E)).2.1) =
      none := by
  rw [transaction_stack_restore]
  rfl

/-- C9 counterexample: popping the empty context stack completes silently
    as a no-op.  In the source, popTransactionContext delegates to JS
    Array.prototype.pop, which on an empty array returns undefined and
    changes nothing; it is not treated as fatal or unreachable. -/
theorem c9_counterexample_pop_empty_is_noop :
    popTransactionContext ([] : Stack Nat Nat) = [] := rfl

/-- C9 amended: popTransactionContext removes the top element of a
    nonempty stack, and on an empty stack it silently succeeds as a
    no-op, returning the empty stack, with no error and no emptiness
    check. -/
theorem c9_amended_pop_is_total_noop_on_empty (A B : Type) :
    popTransactionContext ([] : Stack A B) = [] ∧
    ∀ (c : Ctx A B) (s : Stack A B), popTransactionContext (c :: s) = s :=
  ⟨rfl, fun _ _ => rfl⟩

/-- C10: every transaction call restores the context stack to exactly its
    state from before the call, on every exit path, so the context that
    was current before the call (an enclosing transaction's context, or
    absent at top level) is current again afterwards. -/
theorem c10_stack_restored_exactly (fn : Body V E) (s : Stack V E) :
    (transaction fn s).2.1 = s ∧
    getCurrentTransactionContext ((transaction fn s).2.1) =
      getCurrentTransactionContext s := by
  rw [transaction_stack_restore]
  exact ⟨rfl, rfl⟩

end Picotx
